import Mathlib

/-!
# A verification development for `server.c`

A shallow embedding of the single-file static HTTP server and the properties
of its routing, MIME classification, response assembly, shutdown handler and
date helper.

Conventions of the embedding:

* a C string is the `List Char` of the bytes that precede its terminating NUL;
* raw memory (a `char` array or a `malloc`ed block) is a map from byte offset
  to byte, so that a write or a read is an explicit offset computation;
* `size_t` arithmetic is arithmetic modulo `2 ^ 64`;
* an operation whose value the C semantics leaves undetermined (a read outside
  an object, a buffer that `strftime` could not fill) yields `none`.
-/

namespace CServer

/-! ## C strings and raw memory -/

/-- The terminating byte of a C string. -/
def NUL : Char := Char.ofNat 0

/-- Largest value of `size_t`. -/
def SIZE_MAX : Nat := 2 ^ 64 - 1

/-- `strlen`: number of bytes before the terminator. -/
def strlen (s : List Char) : Nat := s.length

/-- Subtraction of two `size_t` values: it wraps modulo `SIZE_MAX + 1`. -/
def sizeSub (a b : Nat) : Nat :=
  (a % (SIZE_MAX + 1) + (SIZE_MAX + 1 - b % (SIZE_MAX + 1))) % (SIZE_MAX + 1)

/-- `strrchr s c` for a non-NUL `c`: the offset of the last occurrence of `c`
in `s`, or `none` for the null pointer. -/
def strrchr : List Char → Char → Option Nat
  | [], _ => none
  | x :: xs, c =>
    match strrchr xs c with
    | some i => some (i + 1)
    | none => if x = c then some 0 else none

/-- The offsets a string occupies: its bytes and its terminator. -/
def inString (s : List Char) (i : Nat) : Bool := decide (i ≤ s.length)

/-- The read `s[i]` of a C string: a byte of the string, the terminator at
offset `strlen s`, and no determined value outside the string. -/
def charAt (s : List Char) (i : Nat) : Option Char :=
  if i < s.length then s[i]? else if i = s.length then some NUL else none

/-- Raw memory seen from the start of a buffer. -/
abbrev Mem := Nat → Char

/-- A `char` array initialised from a string literal: the characters followed
by the terminator (and, in the model, NUL beyond the array). -/
def cArray (lit : List Char) : Mem := fun i => (lit ++ [NUL]).getD i NUL

/-- The `sizeof` of a `char` array initialised from a string literal. -/
def sizeofArray (lit : List Char) : Nat := lit.length + 1

/-- Store `bytes` at offset `off`. -/
def writeBytes (mem : Mem) (off : Nat) (bytes : List Char) : Mem := fun i =>
  if off ≤ i ∧ i < off + bytes.length then bytes.getD (i - off) NUL else mem i

/-- `strcpy(dst, src)`: the characters of `src` and its terminator. -/
def strcpy (dst : Mem) (src : List Char) : Mem := writeBytes dst 0 (src ++ [NUL])

/-- `fread(dst + off, size, 1, file)` on a file positioned at its start. -/
def fread (dst : Mem) (off size : Nat) (contents : List Char) : Mem :=
  writeBytes dst off (contents.take size)

/-- `send(sock, buf, n, 0)`: the `n` bytes starting at `buf`. -/
def send (buf : Mem) (n : Nat) : List Char := (List.range n).map buf

/-- `sprintf` restricted to the `%s` conversion, the only one the server's
format uses. -/
def sprintf : List Char → List (List Char) → List Char
  | [], _ => []
  | [c], _ => [c]
  | c :: d :: rest, args =>
    if c = '%' ∧ d = 's' then
      match args with
      | a :: args2 => a ++ sprintf rest args2
      | [] => sprintf rest []
    else c :: sprintf (d :: rest) args

/-! ## `getFileURL` and `getMimeType` -/

/-- The route as `getFileURL` holds it after
`char *question = strrchr(route, '?'); if (question) *question = 0;`. -/
def cutQuery (route : List Char) : List Char :=
  match strrchr route '?' with
  | some question => route.take question
  | none => route

/-- The offset `strlen(route) - 1` at which `getFileURL` reads the route once
the query string has been cut. -/
def lastCharIndex (route : List Char) : Nat :=
  sizeSub (strlen (cutQuery route)) 1

/-- `getFileURL(route, fileURL)`: the contents of `fileURL` on return. -/
def getFileURL (route : List Char) : Option (List Char) :=
  -- char *question = strrchr(route, '?'); if (question) *question = 0;
  let route1 := cutQuery route
  -- if (route[strlen(route) - 1] == '/') strcat(route, "index.html");
  match charAt route1 (lastCharIndex route) with
  | none => none
  | some last =>
    let route2 := if last = '/' then route1 ++ "index.html".toList else route1
    -- strcpy(fileURL, "htdocs"); strcat(fileURL, route);
    let fileURL := "htdocs".toList ++ route2
    -- const char *dot = strrchr(fileURL, '.');
    -- if (!dot || dot == fileURL) strcat(fileURL, ".html");
    match strrchr fileURL '.' with
    | none => some (fileURL ++ ".html".toList)
    | some dot => if dot = 0 then some (fileURL ++ ".html".toList) else some fileURL

/-- `getMimeType(file, mime)`: the contents of `mime` on return. -/
def getMimeType (file : List Char) : List Char :=
  match strrchr file '.' with
  | none => "text/html".toList
  | some dot =>
    let ext := file.drop dot
    if ext = ".html".toList then "text/html".toList
    else if ext = ".css".toList then "text/css".toList
    else if ext = ".js".toList then "application/js".toList
    else if ext = ".jpg".toList then "image/jpeg".toList
    else if ext = ".png".toList then "image/png".toList
    else if ext = ".gif".toList then "image/gif".toList
    else "text/html".toList

/-! ## `getTimeString` -/

/-- The fields of `struct tm` that the date format reads. -/
structure Tm where
  tm_sec : Nat
  tm_min : Nat
  tm_hour : Nat
  tm_mday : Nat
  tm_mon : Nat
  tm_year : Nat
  tm_wday : Nat
  tm_zone : List Char

/-- Abbreviated weekday names of the C locale. -/
def wdayNames : List String := ["Sun", "Mon", "Tue", "Wed", "Thu", "Fri", "Sat"]

/-- Abbreviated month names of the C locale. -/
def monNames : List String :=
  ["Jan", "Feb", "Mar", "Apr", "May", "Jun", "Jul", "Aug", "Sep", "Oct", "Nov", "Dec"]

/-- A decimal digit. -/
def digit (d : Nat) : Char := Char.ofNat (48 + d % 10)

/-- Two decimal digits, zero padded. -/
def pad2 (n : Nat) : List Char := [digit (n / 10), digit n]

/-- One conversion specifier of `strftime`. -/
def conversion (spec : Char) (tm : Tm) : List Char :=
  if spec = 'a' then (wdayNames.getD tm.tm_wday "?").toList
  else if spec = 'b' then (monNames.getD tm.tm_mon "?").toList
  else if spec = 'd' then pad2 tm.tm_mday
  else if spec = 'H' then pad2 tm.tm_hour
  else if spec = 'M' then pad2 tm.tm_min
  else if spec = 'S' then pad2 tm.tm_sec
  else if spec = 'Y' then Nat.toDigits 10 (tm.tm_year + 1900)
  else if spec = 'Z' then tm.tm_zone
  else ['%', spec]

/-- The text `strftime` produces for a format. -/
def formatTime : List Char → Tm → List Char
  | [], _ => []
  | c :: rest, tm =>
    if c = '%' then
      match rest with
      | spec :: rest2 => conversion spec tm ++ formatTime rest2 tm
      | [] => [c]
    else c :: formatTime rest tm

/-- `strftime(buf, max, format, &tm)`: the string stored in `buf` when the text
and its terminator fit in `max` bytes; otherwise the call returns 0 and the
contents of `buf` are not determined. -/
def strftime (max : Nat) (format : List Char) (tm : Tm) : Option (List Char) :=
  let text := formatTime format tm
  if text.length + 1 ≤ max then some text else none

/-- The date format of `getTimeString`. -/
def dateFormat : List Char := "%a, %d %b %Y %H:%M:%S %Z".toList

/-- The `sizeof` of a `char *` on the 64-bit targets of the server. -/
def sizeofCharPtr : Nat := 8

/-- `getTimeString(buf)` at broken-down UTC time `tm`: `buf` is a `char *`
parameter, so `sizeof buf` is the size of a pointer. -/
def getTimeString (tm : Tm) : Option (List Char) :=
  strftime sizeofCharPtr dateFormat tm

/-! ## One iteration of the accept loop of `main` -/

/-- The filesystem: `fopen(path, "r")` fails (`none`) or gives the bytes of
the file. -/
abbrev FileSystem := List Char → Option (List Char)

/-- What one iteration does to the outside world. -/
structure Outcome where
  /-- Bytes handed to `send` on the client socket. -/
  sent : List Char
  /-- Routes passed to `getFileURL`. -/
  resolved : List (List Char)
  /-- Paths passed to `fopen`. -/
  opened : List (List Char)
deriving DecidableEq

/-- The string found in `timeBuf` after `getTimeString(timeBuf)`: the date
when `strftime` stored it, else whatever the uninitialised array held. -/
def timeBufAfter (tm : Tm) (stale : List Char) : List Char :=
  match getTimeString tm with
  | some s => s
  | none => stale

/-- The 200 branch of `main`: header, response buffer, `send`. The block
returned by `malloc` initially holds `junk`. -/
def respondOk (tm : Tm) (stale : List Char) (junk : Mem) (fileURL contents : List Char) :
    List Char :=
  let timeBuf := timeBufAfter tm stale
  let mimeType := getMimeType fileURL
  let resHeader :=
    sprintf "HTTP/1.1 200 OK\r\nDate: %s\r\nContent-Type: %s\r\n\n".toList [timeBuf, mimeType]
  let headerSize := strlen resHeader
  let fsize := contents.length
  -- char *resBuffer = malloc(fsize + headerSize); strcpy(resBuffer, resHeader);
  let resBuffer := strcpy junk resHeader
  -- fread(resBuffer + headerSize, fsize, 1, file);
  let resBuffer := fread resBuffer headerSize fsize contents
  send resBuffer (fsize + headerSize)

/-- The body of the accept loop from the method check to the `send`, on the
tokens `method` and `route` that `sscanf` stored. -/
def handleRequest (fs : FileSystem) (tm : Tm) (stale : List Char) (junk : Mem)
    (method route : List Char) : Option Outcome :=
  if method ≠ "GET".toList then
    let response := "HTTP/1.1 400 Bad Request\r\n\n".toList
    some { sent := send (cArray response) (sizeofArray response), resolved := [], opened := [] }
  else
    match getFileURL route with
    | none => none
    | some fileURL =>
      match fs fileURL with
      | none =>
        let response := "HTTP/1.1 404 Not Found\r\n\n".toList
        some { sent := send (cArray response) (sizeofArray response),
               resolved := [route], opened := [fileURL] }
      | some contents =>
        some { sent := respondOk tm stale junk fileURL contents,
               resolved := [route], opened := [fileURL] }

/-! ## The accept loop and `handleSignal` as a transition system -/

/-- Program points of the loop of `main` at which `SIGINT` can arrive. -/
inductive Pc where
  | atMalloc
  | atAccept
  | atRead
  | atFree
  | atRespond
  | atClose
deriving DecidableEq, Repr

/-- The globals of the program and the resources they refer to. -/
structure ServerState where
  pc : Pc
  serverSocket : Nat
  clientSocket : Nat
  /-- The global `request`: `none` is the null pointer. -/
  request : Option Nat
  /-- Addresses of the blocks currently allocated. -/
  heap : List Nat
  /-- Descriptors currently open. -/
  openFds : List Nat
deriving DecidableEq, Repr

/-- The state on entry to the loop: the listening socket is open, the globals
`clientSocket` and `request` still hold their zero initialisation. -/
def initState (listenFd : Nat) : ServerState :=
  { pc := .atMalloc, serverSocket := listenFd, clientSocket := 0, request := none,
    heap := [], openFds := [0, 1, 2, listenFd] }

/-- One statement of the loop. The input `x` is the address returned by
`malloc` or the descriptor returned by `accept`. -/
def step (s : ServerState) (x : Nat) : Option ServerState :=
  match s.pc with
  | .atMalloc =>
    if x = 0 ∨ x ∈ s.heap then none
    else some { s with pc := .atAccept, request := some x, heap := x :: s.heap }
  | .atAccept =>
    if x ∈ s.openFds then none
    else some { s with pc := .atRead, clientSocket := x, openFds := x :: s.openFds }
  | .atRead => some { s with pc := .atFree }
  | .atFree =>
    match s.request with
    | some p => some { s with pc := .atRespond, heap := s.heap.erase p }
    | none => some { s with pc := .atRespond }
  | .atRespond => some { s with pc := .atClose }
  | .atClose => some { s with pc := .atMalloc, openFds := s.openFds.erase s.clientSocket }

/-- Run the loop on a sequence of inputs. -/
def run : ServerState → List Nat → Option ServerState
  | s, [] => some s
  | s, x :: xs =>
    match step s x with
    | some t => run t xs
    | none => none

/-- States the loop can be in when the signal arrives. -/
def Reachable (listenFd : Nat) (s : ServerState) : Prop :=
  ∃ inputs, run (initState listenFd) inputs = some s

/-- What `handleSignal(SIGINT)` does. -/
structure SignalOutcome where
  /-- Descriptors passed to `close`, in order. -/
  closed : List Nat
  /-- The pointer passed to `free`, if any. -/
  freed : Option Nat
  /-- The pointer passed to `free` was not an allocated block. -/
  freedDead : Bool
  exitStatus : Nat
deriving DecidableEq, Repr

/-- `handleSignal(SIGINT)` in state `s`. -/
def handleSignal (s : ServerState) : SignalOutcome :=
  { closed := [s.clientSocket, s.serverSocket],
    freed := s.request,
    freedDead :=
      match s.request with
      | some p => decide (p ∉ s.heap)
      | none => false,
    exitStatus := 0 }

/-! ## Definitions that follow the words of the specification, and examples -/

/-- The last path segment of a route, in the words of the specification: the
text after the last `/`. -/
def lastSegment (route : List Char) : List Char :=
  (route.reverse.takeWhile (fun c => c ≠ '/')).reverse

/-- The extension of a path, in the words of the specification: the suffix
that starts at the last `.`, and nothing when the path has no `.`. -/
def extensionOf (path : List Char) : List Char :=
  if '.' ∈ path then '.' :: (path.reverse.takeWhile (fun c => c ≠ '.')).reverse else []

/-- The extension table of the specification. -/
def mimeTable : List (List Char × List Char) :=
  [(".html".toList, "text/html".toList), (".css".toList, "text/css".toList),
   (".js".toList, "application/js".toList), (".jpg".toList, "image/jpeg".toList),
   (".png".toList, "image/png".toList), (".gif".toList, "image/gif".toList)]

/-- The classification of the specification: look the extension up in the
table, default `text/html`. -/
def classifyMimeType (path : List Char) : List Char :=
  match mimeTable.find? (fun e => e.1 = extensionOf path) with
  | some e => e.2
  | none => "text/html".toList

/-- The six content types. -/
def mimeTypes : List (List Char) :=
  ["text/html".toList, "text/css".toList, "application/js".toList, "image/jpeg".toList,
   "image/png".toList, "image/gif".toList]

/-- The header of a 200 response for a given date string and content type. -/
def okHeader (time mime : List Char) : List Char :=
  "HTTP/1.1 200 OK\r\nDate: ".toList ++ time ++ "\r\nContent-Type: ".toList ++ mime ++
    "\r\n\n".toList

/-- A broken-down time used in examples: Sun, 06 Nov 1994 08:49:37 GMT. -/
def exampleTm : Tm :=
  { tm_sec := 37, tm_min := 49, tm_hour := 8, tm_mday := 6, tm_mon := 10, tm_year := 94,
    tm_wday := 0, tm_zone := "GMT".toList }

/-- A document root that holds `index.html` and an empty `empty.css`. -/
def exampleFs : FileSystem := fun path =>
  if path = "htdocs/index.html".toList then some "<h1>hi</h1>".toList
  else if path = "htdocs/empty.css".toList then some []
  else none

/-- The state of the first iteration right after `free(request)`, with the
listening socket on descriptor 3, the client on 4 and the buffer at 4096. -/
def stateAfterFree : ServerState :=
  { pc := .atRespond, serverSocket := 3, clientSocket := 4, request := some 4096, heap := [],
    openFds := [4, 0, 1, 2, 3] }

/-! ## Lemmas on strings -/

theorem strrchr_eq_none_iff (l : List Char) (c : Char) : strrchr l c = none ↔ c ∉ l := by
  induction l with
  | nil => simp [strrchr]
  | cons x xs ih =>
    unfold strrchr
    cases h : strrchr xs c with
    | none =>
      have hx : c ∉ xs := ih.mp h
      by_cases hxc : x = c
      · simp [hxc]
      · have : ¬ c = x := fun e => hxc e.symm
        simp [hxc, hx, this]
    | some i =>
      have hx : ¬ c ∉ xs := fun hn => by
        have := ih.mpr hn
        simp [h] at this
      simp only [not_not] at hx
      simp [hx]

theorem strrchr_some_zero (x : Char) (xs : List Char) (c : Char)
    (h : strrchr (x :: xs) c = some 0) : x = c := by
  unfold strrchr at h
  cases h2 : strrchr xs c with
  | none =>
    rw [h2] at h
    by_cases hxc : x = c
    · exact hxc
    · simp [hxc] at h
  | some i =>
    rw [h2] at h
    simp at h

theorem strrchr_split (l : List Char) (c : Char) (i : Nat) (h : strrchr l c = some i) :
    ∃ pre rest, l = pre ++ c :: rest ∧ c ∉ rest ∧ i = pre.length := by
  induction l generalizing i with
  | nil => simp [strrchr] at h
  | cons x xs ih =>
    unfold strrchr at h
    cases h2 : strrchr xs c with
    | none =>
      rw [h2] at h
      by_cases hxc : x = c
      · simp [hxc] at h
        refine ⟨[], xs, ?_, (strrchr_eq_none_iff xs c).mp h2, ?_⟩
        · simp [hxc]
        · simp [h]
      · simp [hxc] at h
    | some j =>
      rw [h2] at h
      simp at h
      obtain ⟨pre, rest, h3, h4, h5⟩ := ih j h2
      refine ⟨x :: pre, rest, ?_, h4, ?_⟩
      · simp [h3]
      · simp [← h, h5]

theorem strrchr_of_split (pre rest : List Char) (c : Char) (h : c ∉ rest) :
    strrchr (pre ++ c :: rest) c = some pre.length := by
  induction pre with
  | nil =>
    simp only [List.nil_append, List.length_nil]
    unfold strrchr
    rw [(strrchr_eq_none_iff rest c).mpr h]
    simp
  | cons x xs ih =>
    simp only [List.cons_append, List.length_cons]
    unfold strrchr
    rw [ih]

theorem sizeSub_one (n : Nat) (h1 : 0 < n) (h2 : n ≤ SIZE_MAX) : sizeSub n 1 = n - 1 := by
  unfold sizeSub SIZE_MAX at *
  omega

theorem charAt_last (s : List Char) (h1 : s ≠ []) (h2 : s.length ≤ SIZE_MAX) :
    charAt s (sizeSub (strlen s) 1) = s.getLast? := by
  have hpos : 0 < s.length := List.length_pos.mpr h1
  unfold strlen
  rw [sizeSub_one _ hpos h2]
  unfold charAt
  have : s.length - 1 < s.length := by omega
  simp [this, List.getLast?_eq_getElem?]



/-! ## `getFileURL` -/

theorem cutQuery_of_no_query (route : List Char) (hq : '?' ∉ route) : cutQuery route = route := by
  unfold cutQuery
  rw [(strrchr_eq_none_iff route '?').mpr hq]

/-- The cut happens at the last `?`: what follows it is dropped, what
precedes it is kept, earlier `?` included. -/
theorem cutQuery_at_last (pre rest : List Char) (h : '?' ∉ rest) :
    cutQuery (pre ++ '?' :: rest) = pre := by
  unfold cutQuery
  rw [strrchr_of_split pre rest '?' h]
  simp

theorem strrchr_htdocs_ne_zero (r : List Char) : strrchr ("htdocs".toList ++ r) '.' ≠ some 0 := by
  intro h
  have := strrchr_some_zero 'h' ("tdocs".toList ++ r) '.' h
  exact absurd this (by decide)

theorem strrchr_mem_some (l : List Char) (c : Char) (h : c ∈ l) : ∃ i, strrchr l c = some i := by
  cases h2 : strrchr l c with
  | none => exact absurd h ((strrchr_eq_none_iff l c).mp h2)
  | some i => exact ⟨i, rfl⟩

/-- What `getFileURL` returns once the last character of the cut route is
known. -/
theorem getFileURL_of_last (route : List Char) (last : Char)
    (h : charAt (cutQuery route) (lastCharIndex route) = some last) :
    getFileURL route =
      if '.' ∈ "htdocs".toList ++
          (if last = '/' then cutQuery route ++ "index.html".toList else cutQuery route)
      then some ("htdocs".toList ++
          (if last = '/' then cutQuery route ++ "index.html".toList else cutQuery route))
      else some ("htdocs".toList ++
          (if last = '/' then cutQuery route ++ "index.html".toList else cutQuery route) ++
          ".html".toList) := by
  unfold getFileURL
  simp only [h]
  generalize (if last = '/' then cutQuery route ++ "index.html".toList else cutQuery route) = r2
  by_cases hd : '.' ∈ "htdocs".toList ++ r2
  · obtain ⟨i, hi⟩ := strrchr_mem_some _ _ hd
    have hne : i ≠ 0 := fun e => strrchr_htdocs_ne_zero r2 (e ▸ hi)
    simp only [hi, hd, if_true, hne, if_false]
  · have hn := (strrchr_eq_none_iff _ '.').mpr hd
    simp only [hn, hd, if_false]

/-- C3. A non-empty route without `?` that ends in `/` resolves to
`htdocs ++ route ++ index.html`, with no `.html` suffix added after it. -/
theorem getFileURL_trailing_slash (route : List Char) (hne : route ≠ [])
    (hlen : route.length ≤ SIZE_MAX) (hq : '?' ∉ route) (hs : route.getLast? = some '/') :
    getFileURL route = some ("htdocs".toList ++ route ++ "index.html".toList) := by
  have hc := cutQuery_of_no_query route hq
  have hlast : charAt (cutQuery route) (lastCharIndex route) = some '/' := by
    unfold lastCharIndex
    rw [hc, charAt_last route hne hlen, hs]
  rw [getFileURL_of_last route '/' hlast, hc]
  simp

theorem getFileURL_trailing_slash_witness :
    getFileURL "/".toList = some "htdocs/index.html".toList ∧
    getFileURL "/docs/".toList = some "htdocs/docs/index.html".toList :=
  ⟨getFileURL_trailing_slash "/".toList (by decide) (by decide) (by decide) (by decide),
   getFileURL_trailing_slash "/docs/".toList (by decide) (by decide) (by decide) (by decide)⟩

/-- On a route that has no `.` at all the extension test finds no dot and
`.html` is appended: a non-empty route without `?` and without `.` that does
not end in `/` resolves to `htdocs ++ route ++ .html`. -/
theorem getFileURL_no_dot (route : List Char) (hne : route ≠ [])
    (hlen : route.length ≤ SIZE_MAX) (hq : '?' ∉ route) (hs : route.getLast? ≠ some '/')
    (hd : '.' ∉ route) :
    getFileURL route = some ("htdocs".toList ++ route ++ ".html".toList) := by
  have hc := cutQuery_of_no_query route hq
  obtain ⟨last, hl⟩ : ∃ last, route.getLast? = some last := by
    cases h : route.getLast? with
    | none => exact absurd (List.getLast?_eq_none_iff.mp h) hne
    | some c => exact ⟨c, rfl⟩
  have hne2 : last ≠ '/' := fun e => hs (e ▸ hl)
  have hlast : charAt (cutQuery route) (lastCharIndex route) = some last := by
    unfold lastCharIndex
    rw [hc, charAt_last route hne hlen, hl]
  rw [getFileURL_of_last route last hlast, hc]
  simp only [hne2, if_false]
  have : '.' ∉ "htdocs".toList ++ route := by
    simp only [List.mem_append, not_or]
    exact ⟨by decide, hd⟩
  simp only [this, if_false]

/-- C2. The extension test `strrchr(fileURL, '.')` runs over the whole path and
its guard `dot == fileURL` never holds behind the `htdocs` prefix. The routes
`/a.b/c` and `/.hidden` contain no `?`, do not end in `/`, and their last
segment has no `.` or only a leading one, yet they resolve to `htdocs/a.b/c`
and `htdocs/.hidden` with no `.html` appended; `/about` resolves to
`htdocs/about.html`. -/
theorem getFileURL_extension_test_whole_path :
    ('?' ∉ "/a.b/c".toList ∧ "/a.b/c".toList.getLast? ≠ some '/' ∧
      lastSegment "/a.b/c".toList = "c".toList ∧ '.' ∉ lastSegment "/a.b/c".toList ∧
      getFileURL "/a.b/c".toList = some "htdocs/a.b/c".toList ∧
      getFileURL "/a.b/c".toList ≠ some ("htdocs".toList ++ "/a.b/c".toList ++ ".html".toList)) ∧
    ('?' ∉ "/.hidden".toList ∧ "/.hidden".toList.getLast? ≠ some '/' ∧
      lastSegment "/.hidden".toList = '.' :: "hidden".toList ∧ '.' ∉ "hidden".toList ∧
      getFileURL "/.hidden".toList = some "htdocs/.hidden".toList ∧
      getFileURL "/.hidden".toList ≠
        some ("htdocs".toList ++ "/.hidden".toList ++ ".html".toList)) ∧
    strrchr "htdocs/.hidden".toList '.' = some 7 ∧
    getFileURL "/about".toList = some "htdocs/about.html".toList := by
  decide

/-- C1. The route is cut at the last `?`, not at the first: `/a?x=1?y=2`
resolves to `htdocs/a?x=1.html`, which is not what the text before its first
`?` resolves to, while the single-`?` route `/a?x=1` resolves as `/a` does. -/
theorem getFileURL_cuts_at_last_question :
    getFileURL "/a?x=1?y=2".toList = some "htdocs/a?x=1.html".toList ∧
    getFileURL "/a".toList = some "htdocs/a.html".toList ∧
    getFileURL "/a?x=1?y=2".toList ≠ getFileURL "/a".toList ∧
    getFileURL "/a?x=1".toList = getFileURL "/a".toList := by
  decide

/-- C4. On a route that is empty once the query string is cut, the offset
`strlen(route) - 1` wraps to `SIZE_MAX`, which lies outside the route, and the
function has no determined result; the same holds for the empty route. -/
theorem getFileURL_empty_route_out_of_bounds :
    cutQuery "?x=1".toList = [] ∧
    lastCharIndex "?x=1".toList = SIZE_MAX ∧
    inString (cutQuery "?x=1".toList) (lastCharIndex "?x=1".toList) = false ∧
    getFileURL "?x=1".toList = none ∧
    lastCharIndex [] = SIZE_MAX ∧
    inString (cutQuery []) (lastCharIndex []) = false ∧
    getFileURL [] = none := by
  decide


/-! ## `getMimeType` -/

theorem takeWhile_ne_append (a b : List Char) (c : Char) (h : c ∉ a) :
    (a ++ c :: b).takeWhile (fun x => x ≠ c) = a := by
  induction a with
  | nil => simp [List.takeWhile]
  | cons x xs ih =>
    have hx : x ≠ c := fun e => h (by simp [e])
    have hxs : c ∉ xs := fun e => h (by simp [e])
    have h2 := ih hxs
    rw [List.cons_append, List.takeWhile_cons]
    simp only [ne_eq, hx, not_false_eq_true, decide_True, if_true]
    exact congrArg (List.cons x) h2

theorem drop_strrchr (l : List Char) (c : Char) (i : Nat) (h : strrchr l c = some i) :
    l.drop i = c :: (l.reverse.takeWhile (fun x => x ≠ c)).reverse := by
  obtain ⟨pre, rest, h1, h2, h3⟩ := strrchr_split l c i h
  subst h1 h3
  have hr : c ∉ rest.reverse := by simpa using h2
  simp only [List.drop_left, List.reverse_append, List.reverse_cons, List.append_assoc,
    List.singleton_append]
  rw [takeWhile_ne_append _ _ _ hr]
  simp

theorem drop_strrchr_dot (file : List Char) (i : Nat) (h : strrchr file '.' = some i) :
    file.drop i = extensionOf file := by
  have hm : '.' ∈ file := by
    by_contra hn
    rw [(strrchr_eq_none_iff file '.').mpr hn] at h
    exact absurd h (by simp)
  unfold extensionOf
  rw [if_pos hm]
  exact drop_strrchr file '.' i h

theorem extensionOf_no_dot (file : List Char) (h : '.' ∉ file) : extensionOf file = [] := by
  unfold extensionOf
  rw [if_neg h]

theorem getMimeType_mem (file : List Char) : getMimeType file ∈ mimeTypes := by
  unfold getMimeType mimeTypes
  split
  · simp
  · dsimp only
    split_ifs <;> simp

/-- C5. `getMimeType` is the table lookup on the extension of the path (the
suffix from the last `.`) with default `text/html`; its result is always one
of the six content types; unknown, missing and differently-cased extensions
give `text/html`. -/
theorem getMimeType_classifies (file : List Char) :
    getMimeType file = classifyMimeType file ∧
    getMimeType file ∈ mimeTypes ∧
    getMimeType "htdocs/a.xyz".toList = "text/html".toList ∧
    getMimeType "htdocs/a.PNG".toList = "text/html".toList ∧
    getMimeType "htdocs/README".toList = "text/html".toList ∧
    getMimeType "htdocs/a.png".toList = "image/png".toList := by
  refine ⟨?_, getMimeType_mem file, by decide, by decide, by decide, by decide⟩
  unfold getMimeType classifyMimeType
  cases h : strrchr file '.' with
  | none =>
    have hn := (strrchr_eq_none_iff file '.').mp h
    rw [extensionOf_no_dot file hn]
    rfl
  | some i =>
    simp only []
    rw [drop_strrchr_dot file i h]
    generalize extensionOf file = ext
    unfold mimeTable
    simp only [List.find?]
    by_cases h1 : ext = ".html".toList
    · subst h1; decide
    by_cases h2 : ext = ".css".toList
    · subst h2; decide
    by_cases h3 : ext = ".js".toList
    · subst h3; decide
    by_cases h4 : ext = ".jpg".toList
    · subst h4; decide
    by_cases h5 : ext = ".png".toList
    · subst h5; decide
    by_cases h6 : ext = ".gif".toList
    · subst h6; decide
    have e1 : ¬ ".html".toList = ext := fun e => h1 e.symm
    have e2 : ¬ ".css".toList = ext := fun e => h2 e.symm
    have e3 : ¬ ".js".toList = ext := fun e => h3 e.symm
    have e4 : ¬ ".jpg".toList = ext := fun e => h4 e.symm
    have e5 : ¬ ".png".toList = ext := fun e => h5 e.symm
    have e6 : ¬ ".gif".toList = ext := fun e => h6 e.symm
    simp only [h1, h2, h3, h4, h5, h6, e1, e2, e3, e4, e5, e6, if_false, decide_False]


/-! ## The responses of one loop iteration -/

theorem send_cArray (lit : List Char) :
    send (cArray lit) (sizeofArray lit) = lit ++ [NUL] := by
  unfold send cArray sizeofArray
  apply List.ext_getElem
  · simp
  · intro i h1 h2
    simp only [List.length_map, List.length_range] at h1
    have h3 : i < (lit ++ [NUL]).length := by simpa using h1
    simp [List.getD_eq_getElem?_getD, List.getElem?_eq_getElem h3]

theorem sprintf_header (time mime : List Char) :
    sprintf "HTTP/1.1 200 OK\r\nDate: %s\r\nContent-Type: %s\r\n\n".toList [time, mime] =
      okHeader time mime := by
  simp [sprintf, okHeader]

theorem send_strcpy_fread (junk : Mem) (header contents : List Char) :
    send (fread (strcpy junk header) (strlen header) contents.length contents)
      (contents.length + strlen header) = header ++ contents := by
  unfold send fread strcpy writeBytes strlen
  apply List.ext_getElem
  · simp [Nat.add_comm]
  · intro i h1 h2
    simp only [List.length_map, List.length_range] at h1
    simp only [List.getElem_map, List.getElem_range, List.take_length]
    by_cases hi : i < header.length
    · have hn : ¬ (header.length ≤ i ∧ i < header.length + contents.length) := by omega
      have hy : 0 ≤ i ∧ i < 0 + (header ++ [NUL]).length := by
        simp only [List.length_append, List.length_singleton]
        omega
      rw [if_neg hn, if_pos hy]
      have h3 : i < (header ++ [NUL]).length := by
        simp only [List.length_append, List.length_singleton]
        omega
      simp [List.getD_eq_getElem?_getD, List.getElem?_eq_getElem h3, List.getElem_append_left hi]
    · have hy : header.length ≤ i ∧ i < header.length + contents.length := by omega
      rw [if_pos hy]
      have h3 : i - header.length < contents.length := by omega
      have h4 : header.length ≤ i := by omega
      simp [List.getD_eq_getElem?_getD, List.getElem?_eq_getElem h3,
        List.getElem_append_right h4]

/-- C6. A request whose method is not `GET` makes the iteration send the 27
bytes of the 400 status line followed by one more byte, the NUL that
terminates the array (`sizeof(response)` counts it); no route is resolved and
no file is opened. -/
theorem handleRequest_not_get (fs : FileSystem) (tm : Tm) (stale : List Char) (junk : Mem)
    (method route : List Char) (hm : method ≠ "GET".toList) :
    handleRequest fs tm stale junk method route =
      some { sent := "HTTP/1.1 400 Bad Request\r\n\n".toList ++ [NUL],
             resolved := [], opened := [] } ∧
    "HTTP/1.1 400 Bad Request\r\n\n".toList ++ [NUL] ≠ "HTTP/1.1 400 Bad Request\r\n\n".toList ∧
    ("HTTP/1.1 400 Bad Request\r\n\n".toList ++ [NUL]).length = 28 := by
  refine ⟨?_, by decide, by decide⟩
  unfold handleRequest
  rw [if_pos hm]
  dsimp only
  rw [send_cArray]

theorem handleRequest_not_get_witness :
    "POST".toList ≠ "GET".toList ∧
    handleRequest exampleFs exampleTm [] (fun _ => NUL) "POST".toList "/".toList =
      some { sent := "HTTP/1.1 400 Bad Request\r\n\n".toList ++ [NUL],
             resolved := [], opened := [] } :=
  ⟨by decide,
   (handleRequest_not_get exampleFs exampleTm [] (fun _ => NUL) "POST".toList "/".toList
      (by decide)).1⟩

/-- C7. A `GET` whose resolved path cannot be opened makes the iteration send
the 25 bytes of the 404 status line followed by one more byte, the NUL that
terminates the array (`sizeof(response)` counts it). -/
theorem handleRequest_missing_file (fs : FileSystem) (tm : Tm) (stale : List Char) (junk : Mem)
    (route fileURL : List Char) (hr : getFileURL route = some fileURL)
    (hf : fs fileURL = none) :
    handleRequest fs tm stale junk "GET".toList route =
      some { sent := "HTTP/1.1 404 Not Found\r\n\n".toList ++ [NUL],
             resolved := [route], opened := [fileURL] } ∧
    "HTTP/1.1 404 Not Found\r\n\n".toList ++ [NUL] ≠ "HTTP/1.1 404 Not Found\r\n\n".toList ∧
    ("HTTP/1.1 404 Not Found\r\n\n".toList ++ [NUL]).length = 26 := by
  refine ⟨?_, by decide, by decide⟩
  unfold handleRequest
  rw [if_neg (by simp)]
  simp only [hr, hf, send_cArray]

theorem handleRequest_missing_file_witness :
    getFileURL "/nothing".toList = some "htdocs/nothing.html".toList ∧
    exampleFs "htdocs/nothing.html".toList = none ∧
    handleRequest exampleFs exampleTm [] (fun _ => NUL) "GET".toList "/nothing".toList =
      some { sent := "HTTP/1.1 404 Not Found\r\n\n".toList ++ [NUL],
             resolved := ["/nothing".toList], opened := ["htdocs/nothing.html".toList] } :=
  ⟨by decide, by decide,
   (handleRequest_missing_file exampleFs exampleTm [] (fun _ => NUL) "/nothing".toList
      "htdocs/nothing.html".toList (by decide) (by decide)).1⟩

/-- C8. A `GET` whose resolved path names a file with contents `F`, of any
length, makes the iteration send exactly the header followed by `F`, where
the header carries the content type `getMimeType` gives for the resolved
path; the body is `F` byte for byte and the number of bytes sent is the
length of the header plus the length of `F`. -/
theorem handleRequest_existing_file (fs : FileSystem) (tm : Tm) (stale : List Char) (junk : Mem)
    (route fileURL F : List Char) (hr : getFileURL route = some fileURL)
    (hf : fs fileURL = some F) :
    handleRequest fs tm stale junk "GET".toList route =
      some { sent := okHeader (timeBufAfter tm stale) (getMimeType fileURL) ++ F,
             resolved := [route], opened := [fileURL] } ∧
    (okHeader (timeBufAfter tm stale) (getMimeType fileURL) ++ F).drop
      (okHeader (timeBufAfter tm stale) (getMimeType fileURL)).length = F ∧
    (okHeader (timeBufAfter tm stale) (getMimeType fileURL) ++ F).length =
      (okHeader (timeBufAfter tm stale) (getMimeType fileURL)).length + F.length := by
  have hs : respondOk tm stale junk fileURL F =
      okHeader (timeBufAfter tm stale) (getMimeType fileURL) ++ F := by
    unfold respondOk
    simp only [sprintf_header]
    exact send_strcpy_fread junk _ F
  refine ⟨?_, ?_, ?_⟩
  · unfold handleRequest
    rw [if_neg (by simp)]
    simp only [hr, hf, hs]
  · simp only [List.drop_left]
  · simp only [List.length_append]

theorem handleRequest_existing_file_witness :
    getFileURL "/".toList = some "htdocs/index.html".toList ∧
    exampleFs "htdocs/index.html".toList = some "<h1>hi</h1>".toList ∧
    handleRequest exampleFs exampleTm "Sun, 06".toList (fun _ => 'J') "GET".toList "/".toList =
      some { sent := okHeader (timeBufAfter exampleTm "Sun, 06".toList)
               (getMimeType "htdocs/index.html".toList) ++ "<h1>hi</h1>".toList,
             resolved := ["/".toList], opened := ["htdocs/index.html".toList] } ∧
    getFileURL "/empty.css".toList = some "htdocs/empty.css".toList ∧
    exampleFs "htdocs/empty.css".toList = some [] ∧
    handleRequest exampleFs exampleTm "Sun, 06".toList (fun _ => 'J') "GET".toList
        "/empty.css".toList =
      some { sent := okHeader (timeBufAfter exampleTm "Sun, 06".toList)
               (getMimeType "htdocs/empty.css".toList) ++ [],
             resolved := ["/empty.css".toList], opened := ["htdocs/empty.css".toList] } :=
  ⟨by decide, by decide,
   (handleRequest_existing_file exampleFs exampleTm "Sun, 06".toList (fun _ => 'J') "/".toList
     "htdocs/index.html".toList "<h1>hi</h1>".toList (by decide) (by decide)).1,
   by decide, by decide,
   (handleRequest_existing_file exampleFs exampleTm "Sun, 06".toList (fun _ => 'J')
     "/empty.css".toList "htdocs/empty.css".toList [] (by decide) (by decide)).1⟩

/-! ## `handleSignal` -/

/-- C9. After `free(request)` in the first iteration the loop is in a
reachable state where `request` still holds the address of the freed block;
`handleSignal` there closes both sockets, finds `request` non-null and passes
the dead address to `free` a second time. -/
theorem handleSignal_frees_freed_request :
    run (initState 3) [4096, 4, 0, 0] = some stateAfterFree ∧
    Reachable 3 stateAfterFree ∧
    stateAfterFree.pc = Pc.atRespond ∧
    stateAfterFree.request = some 4096 ∧
    4096 ∉ stateAfterFree.heap ∧
    handleSignal stateAfterFree =
      { closed := [4, 3], freed := some 4096, freedDead := true, exitStatus := 0 } :=
  ⟨by decide, ⟨[4096, 4, 0, 0], by decide⟩, by decide, by decide, by decide, by decide⟩

/-! ## `getTimeString` -/

theorem formatTime_dateFormat (tm : Tm) :
    formatTime dateFormat tm =
      (wdayNames.getD tm.tm_wday "?").toList ++ ", ".toList ++ pad2 tm.tm_mday ++ " ".toList ++
      (monNames.getD tm.tm_mon "?").toList ++ " ".toList ++
      Nat.toDigits 10 (tm.tm_year + 1900) ++ " ".toList ++ pad2 tm.tm_hour ++ ":".toList ++
      pad2 tm.tm_min ++ ":".toList ++ pad2 tm.tm_sec ++ " ".toList ++ tm.tm_zone := by
  simp [formatTime, dateFormat, conversion]

theorem formatTime_dateFormat_length (tm : Tm) : 16 ≤ (formatTime dateFormat tm).length := by
  rw [formatTime_dateFormat]
  simp only [List.length_append, pad2, List.length_cons, List.length_nil, String.toList]
  simp only [String.length_data] 
  omega

/-- C10. The limit `getTimeString` passes to `strftime` is the size of a
pointer, 8 bytes; the formatted date of the example, `Sun, 06 Nov 1994
08:49:37 GMT`, has 29 characters and needs 30 bytes; for every time the text
is longer than the limit allows, so `strftime` stores no complete date. -/
theorem getTimeString_limit_too_small :
    sizeofCharPtr = 8 ∧
    formatTime dateFormat exampleTm = "Sun, 06 Nov 1994 08:49:37 GMT".toList ∧
    (formatTime dateFormat exampleTm).length = 29 ∧
    getTimeString exampleTm = none ∧
    (∀ tm : Tm, getTimeString tm = none) ∧
    strftime 30 dateFormat exampleTm = some "Sun, 06 Nov 1994 08:49:37 GMT".toList := by
  refine ⟨rfl, by decide, by decide, by decide, ?_, by decide⟩
  intro tm
  unfold getTimeString strftime sizeofCharPtr
  have := formatTime_dateFormat_length tm
  simp only []
  rw [if_neg (by omega)]


end CServer
